import Mathlib

/-!
Shallow embedding of the analytics aggregation logic of the educational
platform backend (Express routes over Supabase results and a Firebase
content tree), together with proofs about its completion, trend and
deep-dive computations.

Conventions of the embedding:
* JavaScript numbers that hold integral scores are modelled as `Int`
  (or `Nat` where the source can only produce non-negative values).
* Every division in the source has the shape `Math.round(num / den)`
  with integer operands, so real-valued rounding is modelled by
  `jsRound num den = ⌊num / den + 1/2⌋` (JS `Math.round` rounds half
  toward positive infinity); multiplications such as
  `(score / total) * 100` are folded into the numerator, which denotes
  the same rational number.
* Possibly-missing fields (`undefined` / `null`) are `Option` fields;
  the JS fallback `x || d` on a string field is `jsOrString` (the empty
  string is falsy in JS), and numeric fallbacks `Number(x) || d` are
  spelled out at each use site to match the source line.
* String-keyed `Set` / `Map` lookups built from template keys such as
  `` `${student_id}_${sub_unit_id}_${result_type}` `` are modelled as
  predicates on the (student, sub-unit, type) triple.
-/

/-- JavaScript `Math.round(num / den)` for integer operands and
`den ≠ 0`: round half toward positive infinity, that is
`⌊num / den + 1/2⌋ = ⌊(2 num + den) / (2 den)⌋`, computed with floor
division. -/
def jsRound (num den : Int) : Int := Int.fdiv (2 * num + den) (2 * den)

/-- JavaScript `x || d` for string-valued `x`: `undefined`, `null` and
the empty string are falsy and fall back to `d`. -/
def jsOrString (o : Option String) (d : String) : String :=
  match o with
  | some s => if s = "" then d else s
  | none => d

/-- Source `percentFrom(score, total)`: `0` when `total` is falsy,
otherwise `Math.round((score / total) * 100)`. -/
def percentFrom (score total : Int) : Int :=
  if total = 0 then 0 else jsRound (score * 100) total

/-! ## Content tree (Firebase side) -/

/-- Metadata of one sub-unit in the content tree.  The `mcq` / `coding`
content maps are modelled by their key sets (only presence and keys are
read by the analytics code). -/
structure SubUnitMeta where
  sub_type : Option String
  mcq : Option (List String)
  coding : Option (List String)
  totalMcqQuestions : Option Int
  totalCodingQuestions : Option Int
deriving DecidableEq, Repr

/-- Source `meta.mcq !== undefined || (meta['total-mcq-questions'] &&
meta['total-mcq-questions'] > 0)`: the second disjunct is truthy exactly
when the counter field is present and positive. -/
def hasMCQ (m : SubUnitMeta) : Bool :=
  m.mcq.isSome ||
    (match m.totalMcqQuestions with
     | some n => decide (0 < n)
     | none => false)

/-- Source `meta.coding !== undefined || (meta['total-coding-questions']
&& meta['total-coding-questions'] > 0)`. -/
def hasCoding (m : SubUnitMeta) : Bool :=
  m.coding.isSome ||
    (match m.totalCodingQuestions with
     | some n => decide (0 < n)
     | none => false)

/-- One unit of the course tree: its `sub-units` map, as an ordered
association list of (sub-unit id, metadata). -/
structure CourseUnit where
  subUnits : List (String × SubUnitMeta)
deriving DecidableEq, Repr

/-- The `units` map of one course. -/
structure CourseTree where
  units : List (String × CourseUnit)
deriving DecidableEq, Repr

/-- A blueprint item as pushed by the section-completion and
section-exam-progress routes. -/
structure BlueprintItem where
  sub_unit_id : String
  has_mcq : Bool
  has_coding : Bool
deriving DecidableEq, Repr

/-- Blueprint construction shared by `POST /teacher/analytics/section-completion`
(`filter = "practice"`) and `POST /teacher/analytics/section-exam-progress`
(`filter = "exam"`): traverse units, then sub-units; keep a sub-unit iff
its `sub_type` equals the filter and it has MCQ or coding content. -/
def blueprintEntry (filter : String) (su : String × SubUnitMeta) :
    Option BlueprintItem :=
  if su.2.sub_type = some filter ∧ (hasMCQ su.2 || hasCoding su.2) = true then
    some ⟨su.1, hasMCQ su.2, hasCoding su.2⟩
  else
    none

def buildBlueprint (tree : CourseTree) (filter : String) : List BlueprintItem :=
  tree.units.flatMap fun u => u.2.subUnits.filterMap (blueprintEntry filter)

/-! ## Result rows (Supabase side) -/

/-- The nested `analytics.mcq` score pair, present when
`a?.mcq && typeof a.mcq.score === 'number'` holds in the source. -/
structure McqAnalytics where
  score : Int
  total : Int
deriving DecidableEq, Repr

/-- A submitted row of the `results` table, with the columns the
analytics endpoints read.  All rows handled by the embedded computations
were fetched with `submitted_at` not null, so that filter is implicit. -/
structure ResultRow where
  student_id : String
  sub_unit_id : String
  result_type : String
  attempt_count : Nat
  marks_obtained : Option Int
  total_marks : Option Int
  mcqA : Option McqAnalytics
  start_config : Option String
  end_config : Option String
deriving DecidableEq, Repr

/-- Membership test of the section-completion `submissionSet`
(`submissionSet.has(`key`)` over keys `studentId_subUnitId_type`). -/
def submissionSetHas (rows : List ResultRow) (sid sub ty : String) : Bool :=
  rows.any fun r =>
    r.student_id == sid && r.sub_unit_id == sub && r.result_type == ty

/-- Per-item progress accumulation, exactly the branch structure of the
source (`unit-completion` spells the second and third guard with the
explicit negation; the section and exam variants elide it, which is
equivalent because the branches are tried in order). -/
def itemProgress (hasM hasC didM didC : Bool) : Nat :=
  if hasM && hasC then
    (if didM then 50 else 0) + (if didC then 50 else 0)
  else if hasM && !hasC then
    (if didM then 100 else 0)
  else if !hasM && hasC then
    (if didC then 100 else 0)
  else 0

/-- `studentSubUnitSum` of the section-completion route: the sum of
per-item progress for one student over the practice blueprint. -/
def studentSubUnitSum (bp : List BlueprintItem) (rows : List ResultRow)
    (sid : String) : Nat :=
  (bp.map fun item =>
    itemProgress item.has_mcq item.has_coding
      (submissionSetHas rows sid item.sub_unit_id "mcq")
      (submissionSetHas rows sid item.sub_unit_id "coding")).sum

/-- `studentAvg` of the section-completion route:
`Math.round(studentSubUnitSum / totalPracticeItems)`. -/
def studentAvg (bp : List BlueprintItem) (rows : List ResultRow)
    (sid : String) : Int :=
  jsRound (studentSubUnitSum bp rows sid) bp.length

/-- The `section_overall_completion` value produced by
`POST /teacher/analytics/section-completion`: `0` for an empty section
and for an empty practice blueprint (the early returns), otherwise
`Math.round(sectionTotalPercent / students.length)` where
`sectionTotalPercent` sums the per-student rounded averages. -/
def sectionOverallCompletion (students : List String) (tree : CourseTree)
    (rows : List ResultRow) : Int :=
  if students.isEmpty then 0
  else
    let bp := buildBlueprint tree "practice"
    if bp.length = 0 then 0
    else jsRound ((students.map (studentAvg bp rows)).sum) students.length

/-- Output of `POST /teacher/analytics/unit-completion` (the fields the
claims are about). -/
structure UnitCompletionOut where
  total_sub_units : Nat
  overall_unit_completion : Int
deriving DecidableEq, Repr

/-- The unit-completion route: it iterates over every key of the
`sub-units` map (no content filter), scores each with `itemProgress`,
and divides by the number of sub-unit keys, guarding the empty case. -/
def unitCompletion (subUnits : List (String × SubUnitMeta))
    (rows : List ResultRow) : UnitCompletionOut :=
  let percents := subUnits.map fun su =>
    itemProgress (hasMCQ su.2) (hasCoding su.2)
      (rows.any fun r => r.sub_unit_id == su.1 && r.result_type == "mcq")
      (rows.any fun r => r.sub_unit_id == su.1 && r.result_type == "coding")
  { total_sub_units := subUnits.length
    overall_unit_completion :=
      if 0 < subUnits.length then jsRound percents.sum subUnits.length
      else 0 }

/-- The `resultMap` of the section-exam-progress routes: rows are
inserted into a `Map` keyed by `studentId_subUnitId_type` in fetch
order, a later row overwriting an earlier one with the same key; a
lookup therefore yields the last matching row of the list. -/
def resultMapGet (rows : List ResultRow) (sid sub ty : String) :
    Option ResultRow :=
  rows.foldl
    (fun acc r =>
      if r.student_id == sid && r.sub_unit_id == sub && r.result_type == ty
      then some r else acc)
    none

/-- Per-student `exam_completion_percentage` of the
section-exam-progress routes (progress part only; the config capture is
not needed by the claims below). -/
def examCompletionPercentage (bp : List BlueprintItem)
    (rows : List ResultRow) (sid : String) : Int :=
  jsRound
    ((bp.map fun item =>
        itemProgress item.has_mcq item.has_coding
          (resultMapGet rows sid item.sub_unit_id "mcq").isSome
          (resultMapGet rows sid item.sub_unit_id "coding").isSome).sum)
    bp.length

/-- One step of the `getLatest` helper of the analytics-summary route:
`if (!map.has(r.student_id) || map.get(r.student_id).attempt_count < r.attempt_count) map.set(r.student_id, r)` —
replace the stored row for the student when the new row has a strictly
greater `attempt_count`, insert when the student is new. -/
def getLatestStep (acc : List ResultRow) (r : ResultRow) : List ResultRow :=
  if acc.any fun x => x.student_id == r.student_id then
    acc.map fun x =>
      if x.student_id = r.student_id ∧ x.attempt_count < r.attempt_count
      then r else x
  else acc ++ [r]

/-- The `getLatest` helper: fold the rows into a `Map` keyed by
`student_id` and return the stored rows (in key-insertion order, as
`Map.values()` does). -/
def getLatest (rows : List ResultRow) : List ResultRow :=
  rows.foldl getLatestStep []

/-! ## Deep dive: test-case exposure (sub-unit-details routes) -/

/-- One stored test case of a coding question (`sample-input-output` or
`hidden-test-cases` entry). -/
structure TestCase where
  input : Option String
  output : Option String
deriving DecidableEq, Repr

/-- One entry of the `test_cases` array returned by the deep-dive
response. -/
structure RenderedTestCase where
  name : String
  input : String
  expected_output : String
deriving DecidableEq, Repr

/-- Source mapping of a sample test case:
`{ name: "Sample Case i+1", input: tc.input || "", expected_output: tc.output || "" }`. -/
def renderSample (i : Nat) (tc : TestCase) : RenderedTestCase :=
  { name := "Sample Case " ++ toString (i + 1)
    input := jsOrString tc.input ""
    expected_output := jsOrString tc.output "" }

/-- Source mapping of a hidden test case:
`{ name: "Hidden Case i+1", input: tc.input || "[Hidden]", expected_output: tc.output || "[Hidden]" }`. -/
def renderHidden (i : Nat) (tc : TestCase) : RenderedTestCase :=
  { name := "Hidden Case " ++ toString (i + 1)
    input := jsOrString tc.input "[Hidden]"
    expected_output := jsOrString tc.output "[Hidden]" }

/-- The `allTestCases` array of the deep-dive routes (teacher
`/teacher/analytics/sub-unit-details` and admin
`/admin/analytics/sub-unit-details` build it identically): the rendered
sample cases followed by the rendered hidden cases. -/
def allTestCases (sampleTC hiddenTC : List TestCase) : List RenderedTestCase :=
  sampleTC.mapIdx renderSample ++ hiddenTC.mapIdx renderHidden

/-! ## Deep dive: completion stats and verdict -/

/-- Source `totalToShow = Number(meta['...-question-to-show']) || totalAvailable`:
a missing or zero show-cap field falls back to the number of available
questions. -/
def totalToShow (showField : Option Int) (totalAvailable : Nat) : Int :=
  match showField with
  | some n => if n = 0 then (totalAvailable : Int) else n
  | none => (totalAvailable : Int)

/-- Source completion percentage of one deep-dive attempt:
`totalToShow > 0 ? Math.round((userSubmittedCount / totalToShow) * 100) : 0`,
then clamped with `if (completionPct > 100) completionPct = 100`. -/
def completionPct (userSubmittedCount : Nat) (cap : Int) : Int :=
  let base := if 0 < cap then jsRound (userSubmittedCount * 100) cap else 0
  if 100 < base then 100 else base

/-- Source `const score = Number(resultRow?.marks_obtained) || 0`. -/
def deepScore (resultRow : Option ResultRow) : Int :=
  (resultRow.bind (·.marks_obtained)).getD 0

/-- Source `const total = Number(resultRow?.total_marks) || 100`: a
missing row, a missing field and a zero value all fall back to `100`. -/
def deepTotal (resultRow : Option ResultRow) : Int :=
  match resultRow.bind (·.total_marks) with
  | some t => if t = 0 then 100 else t
  | none => 100

/-- Source `const percent = Math.round((score / total) * 100)` of the
deep-dive overview. -/
def deepPercent (resultRow : Option ResultRow) : Int :=
  jsRound (deepScore resultRow * 100) (deepTotal resultRow)

/-- Source `const isPass = percent >= 40` (the deep-dive threshold). -/
def deepIsPass (resultRow : Option ResultRow) : Bool :=
  decide (40 ≤ deepPercent resultRow)

/-- Source `status: isPass ? "Passed" : "Failed"` of the deep-dive
overview. -/
def deepStatus (resultRow : Option ResultRow) : String :=
  if deepIsPass resultRow then "Passed" else "Failed"

/-! ## Cohort pass/fail tally and attempt trends (analytics-summary route) -/

/-- Source `const PASS_THRESHOLD = 0.5; // 50%`. -/
def PASS_THRESHOLD : Rat := 1 / 2

/-- Score read by `calcStats`:
`a?.mcq ? a.mcq.score : (Number(r.marks_obtained) || 0)`. -/
def calcScore (r : ResultRow) : Int :=
  match r.mcqA with
  | some m => m.score
  | none => r.marks_obtained.getD 0

/-- Total read by `calcStats`:
`a?.mcq ? a.mcq.total : (Number(r.total_marks) || 0)`. -/
def calcTotal (r : ResultRow) : Int :=
  match r.mcqA with
  | some m => m.total
  | none => r.total_marks.getD 0

/-- Source condition `percentFrom(score, total) >= PASS_THRESHOLD * 100`
of the cohort tally. -/
def cohortPasses (r : ResultRow) : Bool :=
  decide (PASS_THRESHOLD * 100 ≤ (percentFrom (calcScore r) (calcTotal r) : Rat))

/-- Source `calcStats`: fold the latest-attempt rows into `(pass, fail)`
counters using the 50% threshold. -/
def calcStats (l : List ResultRow) : Nat × Nat :=
  l.foldl
    (fun pf r => if cohortPasses r then (pf.1 + 1, pf.2) else (pf.1, pf.2 + 1))
    (0, 0)

/-- Percentage of one row as read by `computeAvgPctByAttempt`: the
nested `analytics.mcq` score/total pair when present, else the flat
`marks_obtained`/`total_marks` pair with `Number(x) || 0` defaults. -/
def rowPct (r : ResultRow) : Int :=
  match r.mcqA with
  | some m => percentFrom m.score m.total
  | none => percentFrom (r.marks_obtained.getD 0) (r.total_marks.getD 0)

/-- One `Map` upsert of `computeAvgPctByAttempt`
(`if (!map.has(att)) map.set(att, {0,0}); m.sumPct += pct; m.count += 1`):
update the entry for the attempt number in place, or append a fresh
entry. -/
def upsertPct : List (Nat × Int × Nat) → Nat → Int → List (Nat × Int × Nat)
  | [], att, pct => [(att, pct, 1)]
  | e :: rest, att, pct =>
    if e.1 = att then (e.1, e.2.1 + pct, e.2.2 + 1) :: rest
    else e :: upsertPct rest att pct

/-- The accumulator `map` of `computeAvgPctByAttempt` after folding all
rows: per attempt number, the running `sumPct` and `count`. -/
def trendMapOf (rows : List ResultRow) : List (Nat × Int × Nat) :=
  rows.foldl (fun m r => upsertPct m r.attempt_count (rowPct r)) []

/-- Lookup in the accumulator map (`map.get(att)`). -/
def findEntry : List (Nat × Int × Nat) → Nat → Option (Nat × Int × Nat)
  | [], _ => none
  | e :: rest, a => if e.1 = a then some e else findEntry rest a

/-- Source `m.count > 0 ? Math.round(m.sumPct / m.count) : 0` for one
attempt number (the attempt is always present when this is evaluated). -/
def avgForAttempt (m : List (Nat × Int × Nat)) (a : Nat) : Int :=
  match findEntry m a with
  | some e => if 0 < e.2.2 then jsRound e.2.1 e.2.2 else 0
  | none => 0

/-- Source `computeAvgPctByAttempt`: the attempt numbers present, sorted
ascending, paired with the rounded mean percentage at each attempt. -/
def computeAvgPctByAttempt (rows : List ResultRow) : List Nat × List Int :=
  let m := trendMapOf rows
  let attempts := List.insertionSort (· ≤ ·) (m.map (·.1))
  (attempts, attempts.map (avgForAttempt m))

/-! ## Spec-side definitions used for comparison -/

/-- Modelled from the spec: the section average as the arithmetic mean
of each student's own (rounded) completion percentage (§4.3 "Output per
section/cohort"). -/
def sectionAverageSpec (bp : List BlueprintItem) (rows : List ResultRow)
    (students : List String) : Int :=
  jsRound ((students.map (studentAvg bp rows)).sum) students.length

/-- Modelled from the spec: the pooled alternative the spec rejects,
`round(100 × total points scored / total points possible)` with 100
possible points per blueprint item per student. -/
def pooledSectionCompletionSpec (bp : List BlueprintItem)
    (rows : List ResultRow) (students : List String) : Int :=
  jsRound (100 * ((students.map (studentSubUnitSum bp rows)).sum : Int))
    (100 * bp.length * students.length)

/-- Modelled from the spec: the mean percentage over all rows at one
attempt number, used to state what `computeAvgPctByAttempt` must return
(§4.5). -/
def specAvgPct (rows : List ResultRow) (a : Nat) : Int :=
  let l := rows.filter fun r => r.attempt_count = a
  if l.length = 0 then 0 else jsRound (l.map rowPct).sum l.length

/-- A course tree with the content-less sub-units removed; used to state
the blueprint-exclusion invariant. -/
def pruneContentless (tree : CourseTree) : CourseTree :=
  ⟨tree.units.map fun u =>
    (u.1, ⟨u.2.subUnits.filter fun su => hasMCQ su.2 || hasCoding su.2⟩)⟩



/-! ## Concrete inputs used by the claim proofs -/

def c3MetaA : SubUnitMeta := ⟨some "practice", some ["q1"], none, none, none⟩

def c3MetaB : SubUnitMeta := ⟨some "practice", none, none, none, none⟩

def c3Rows : List ResultRow :=
  [⟨"s1", "A", "mcq", 1, some 10, some 10, none, none, none⟩]

/-- Course tree for the C4 scenario: a 2-item practice blueprint, item
`X` mcq-only and item `Y` coding-only. -/
def c4Tree : CourseTree :=
  ⟨[("u1", ⟨[("X", ⟨some "practice", some ["q1"], none, none, none⟩),
             ("Y", ⟨some "practice", none, some ["q1"], none, none⟩)]⟩)]⟩

def c4Students : List String := ["s1", "s2"]

/-- Student `s1` completed both items of `c4Tree`; student `s2` nothing. -/
def c4Rows : List ResultRow :=
  [⟨"s1", "X", "mcq", 1, some 10, some 10, none, none, none⟩,
   ⟨"s1", "Y", "coding", 1, some 10, some 10, none, none, none⟩]

/-- Course tree separating the mean-of-percentages output from the
pooled alternative: three practice sub-units, each with both mcq and
coding content. -/
def c4dTree : CourseTree :=
  ⟨[("u1", ⟨[("A", ⟨some "practice", some ["q1"], some ["q1"], none, none⟩),
             ("B", ⟨some "practice", some ["q1"], some ["q1"], none, none⟩),
             ("C", ⟨some "practice", some ["q1"], some ["q1"], none, none⟩)]⟩)]⟩

def c4dStudents : List String := ["s1", "s2"]

/-- Student `s1` submitted only the mcq half of item `A`. -/
def c4dRows : List ResultRow :=
  [⟨"s1", "A", "mcq", 1, some 5, some 10, none, none, none⟩]

/-- Attempt 2 row fetched before the attempt 1 row for the same
(student, sub-unit, modality) key. -/
def c5RowEarlier : ResultRow :=
  ⟨"s1", "e1", "mcq", 2, some 10, some 10, none, some "cfgA", some "cfgA"⟩

def c5RowLater : ResultRow :=
  ⟨"s1", "e1", "mcq", 1, some 2, some 10, none, some "cfgB", some "cfgB"⟩

def c5Rows : List ResultRow := [c5RowEarlier, c5RowLater]

/-- A latest-attempt row with 38 marks of 100. -/
def c6Row38 : ResultRow :=
  ⟨"s1", "u1", "mcq", 1, some 38, some 100, none, none, none⟩

/-- Trend rows with attempt counts [1, 1, 2] and flat percentages
[40, 60, 80]. -/
def c7Rows : List ResultRow :=
  [⟨"s1", "u1", "mcq", 1, some 40, some 100, none, none, none⟩,
   ⟨"s2", "u1", "mcq", 1, some 60, some 100, none, none, none⟩,
   ⟨"s1", "u1", "mcq", 2, some 80, some 100, none, none, none⟩]

def c10Row : ResultRow :=
  ⟨"s1", "u1", "coding", 1, some 50, some 0, none, none, none⟩

/-! ## Helper lemmas -/

/-- The blueprint guard rejects a sub-unit with neither modality. -/
theorem blueprintEntry_eq_none_of_contentless (filter : String)
    (su : String × SubUnitMeta) (h : (hasMCQ su.2 || hasCoding su.2) = false) :
    blueprintEntry filter su = none := by
  unfold blueprintEntry
  rw [if_neg]
  intro hc
  rw [h] at hc
  exact Bool.false_ne_true hc.2

/-- Pre-filtering the sub-units by content presence does not change the
result of the guarded `filterMap` that builds the blueprint of one unit. -/
theorem filterMap_guard_filter (su : List (String × SubUnitMeta)) (filter : String) :
    ((su.filter fun x => hasMCQ x.2 || hasCoding x.2).filterMap (blueprintEntry filter)) =
      su.filterMap (blueprintEntry filter) := by
  induction su with
  | nil => rfl
  | cons x rest ih =>
    cases hb : (hasMCQ x.2 || hasCoding x.2) with
    | true => simp only [List.filter_cons, hb, if_true, List.filterMap_cons, ih]
    | false =>
      simp only [List.filter_cons, hb, Bool.false_eq_true, if_false, List.filterMap_cons,
        blueprintEntry_eq_none_of_contentless filter x hb, ih]

/-! ## Claim C1: completion weight invariant -/

/-- Claim C1: for every blueprint item (and every student), item
progress follows the weight rule — with both modalities each submitted
modality contributes exactly 50; with exactly one modality a submission
in that modality yields 100 and otherwise 0; progress is always one of
0, 50, 100 and never exceeds 100.  `itemProgress` is the per-item
computation shared by the practice (section-completion) and exam
(section-exam-progress) calculators. -/
theorem itemProgress_weight_conservation :
    ∀ hasM hasC didM didC : Bool,
      itemProgress hasM hasC didM didC =
        (if hasM && hasC then
          (if didM then 50 else 0) + (if didC then 50 else 0)
         else if hasM || hasC then
          (if (hasM && didM) || (hasC && didC) then 100 else 0)
         else 0) ∧
      (itemProgress hasM hasC didM didC = 0 ∨
        itemProgress hasM hasC didM didC = 50 ∨
        itemProgress hasM hasC didM didC = 100) ∧
      itemProgress hasM hasC didM didC ≤ 100 := by
  decide

/-! ## Claim C2: hidden test-case redaction -/

/-- Claim C2 (code bug): the deep-dive response renders a hidden test
case with `tc.input || "[Hidden]"` / `tc.output || "[Hidden]"`, so the
actual stored values leak whenever they are present and non-empty; the
sentinel is only a fallback for missing values.  At the concrete hidden
case `{input: "5", output: "25"}` the response carries `"5"`/`"25"`,
not the sentinel. -/
theorem hidden_testcase_leaks_actual_values :
    allTestCases [] [⟨some "5", some "25"⟩] =
      [⟨"Hidden Case 1", "5", "25"⟩] ∧
    (("5" : String) == "[Hidden]") = false ∧
    (("25" : String) == "[Hidden]") = false ∧
    allTestCases [] [⟨none, none⟩] =
      [⟨"Hidden Case 1", "[Hidden]", "[Hidden]"⟩] := by
  decide

/-! ## Claim C3: blueprint exclusion of content-less sub-units -/

/-- Claim C3 (counterexample): in the unfiltered unit-completion mode a
sub-unit with neither mcq nor coding content does appear in the
denominator and dilutes the result: with sub-unit `A` (mcq, submitted)
and content-less sub-unit `B`, the route reports 2 sub-units and 50%
overall, whereas dropping `B` would give 100%. -/
theorem contentless_subunit_dilutes_unit_completion :
    hasMCQ c3MetaB = false ∧ hasCoding c3MetaB = false ∧
    unitCompletion [("A", c3MetaA), ("B", c3MetaB)] c3Rows = ⟨2, 50⟩ ∧
    unitCompletion [("A", c3MetaA)] c3Rows = ⟨1, 100⟩ := by
  decide

/-- Claim C3 (amended): the subtype-filtered blueprint builders
(practice and exam) never emit a sub-unit with neither mcq nor coding
content — pruning such sub-units from the tree leaves every blueprint
unchanged, and every emitted item has a modality; the unfiltered
unit-completion mode, however, counts every sub-unit of the unit in its
denominator, content or not. -/
theorem blueprint_excludes_contentless_subunits_amended :
    (∀ (tree : CourseTree) (filter : String),
      buildBlueprint tree filter = buildBlueprint (pruneContentless tree) filter) ∧
    (∀ (tree : CourseTree) (filter : String),
      (buildBlueprint tree filter).all (fun i => i.has_mcq || i.has_coding) = true) ∧
    (∀ (subUnits : List (String × SubUnitMeta)) (rows : List ResultRow),
      (unitCompletion subUnits rows).total_sub_units = subUnits.length) := by
  refine ⟨fun tree filter => ?_, fun tree filter => ?_, fun subUnits rows => rfl⟩
  · obtain ⟨units⟩ := tree
    unfold buildBlueprint pruneContentless
    induction units with
    | nil => rfl
    | cons u rest ih =>
      simp only [List.map_cons, List.flatMap_cons] at *
      rw [ih, filterMap_guard_filter]
  · rw [List.all_eq_true]
    intro i hi
    unfold buildBlueprint at hi
    rw [List.mem_flatMap] at hi
    obtain ⟨u, _, hu⟩ := hi
    rw [List.mem_filterMap] at hu
    obtain ⟨su, _, hsu⟩ := hu
    unfold blueprintEntry at hsu
    by_cases h : su.2.sub_type = some filter ∧ (hasMCQ su.2 || hasCoding su.2) = true
    · rw [if_pos h] at hsu
      cases hsu
      exact h.2
    · rw [if_neg h] at hsu
      cases hsu

/-! ## Claim C8: completion-percentage clamp -/

/-- Claim C8: the deep-dive question completion percentage equals the
rounded ratio of filtered-submission count to the show-cap, clamped so
it never exceeds 100 (and 0 when the cap is not positive); at 7
submissions against a cap of 5 the raw rounded value 140 is clamped to
100.  Both the teacher and the admin `sub-unit-details` routes compute
this identically. -/
theorem completionPct_clamped :
    (∀ (count : Nat) (cap : Int),
      completionPct count cap ≤ 100 ∧
      completionPct count cap =
        (if 0 < cap then min 100 (jsRound (count * 100) cap) else 0)) ∧
    completionPct 7 5 = 100 ∧ jsRound (7 * 100) 5 = 140 := by
  refine ⟨fun count cap => ?_, by decide, by decide⟩
  unfold completionPct
  by_cases h : 0 < cap
  · simp only [h, if_true]
    refine ⟨?_, ?_⟩
    · split <;> omega
    · rw [min_def]
      split <;> split <;> omega
  · simp only [h, if_false]
    omega

/-! ## Claim C9: empty-blueprint guard -/

/-- Claim C9: when the set of sub-units in scope (unit-completion) or
the practice blueprint (section-completion) is empty, the completion
calculation returns 0 through its explicit guard, performing no
division. -/
theorem empty_blueprint_returns_zero :
    (∀ rows : List ResultRow,
      (unitCompletion [] rows).overall_unit_completion = 0) ∧
    (∀ (students : List String) (tree : CourseTree) (rows : List ResultRow),
      buildBlueprint tree "practice" = [] →
      sectionOverallCompletion students tree rows = 0) := by
  constructor
  · intro rows
    rfl
  · intro students tree rows h
    unfold sectionOverallCompletion
    split
    · rfl
    · rw [h]
      rfl

/-- Witness for C9 at a concrete empty course tree. -/
theorem empty_blueprint_returns_zero_witness :
    buildBlueprint ⟨[]⟩ "practice" = [] ∧
    sectionOverallCompletion ["s1"] ⟨[]⟩ [] = 0 :=
  ⟨rfl, empty_blueprint_returns_zero.2 ["s1"] ⟨[]⟩ [] rfl⟩

/-! ## Claim C10: deep-dive score/total defaults -/

/-- Claim C10 (counterexample): when a result row is present with
`total_marks = 0` but `marks_obtained = 50`, only the total defaults to
100 — the score stays 50, the percentage is 50 and the verdict is
"Passed", contradicting the claim that in every defaulting case the
score defaults to 0, the percentage is 0 and the verdict "Failed". -/
theorem zero_total_marks_keeps_score :
    c10Row.total_marks = some 0 ∧
    deepScore (some c10Row) = 50 ∧
    deepTotal (some c10Row) = 100 ∧
    deepPercent (some c10Row) = 50 ∧
    deepStatus (some c10Row) = "Passed" ∧
    (deepStatus (some c10Row) == "Failed") = false := by
  decide

/-- Claim C10 (amended): when the result row is absent, the score
defaults to 0 and the total to 100, so the percentage is 0 and the
verdict "Failed"; whenever `total_marks` is missing or zero the total
defaults to 100 (the score keeps `marks_obtained`, defaulting to 0 only
when itself absent), so the denominator of the verdict computation is
never zero. -/
theorem deep_dive_defaults_amended :
    deepScore none = 0 ∧ deepTotal none = 100 ∧ deepPercent none = 0 ∧
    deepStatus none = "Failed" ∧
    (∀ row : ResultRow,
      deepTotal (some { row with total_marks := some 0 }) = 100 ∧
      deepTotal (some { row with total_marks := none }) = 100) ∧
    (∀ r : Option ResultRow, (deepTotal r == 0) = false) := by
  refine ⟨by decide, by decide, by decide, by decide,
    fun row => ⟨rfl, rfl⟩, fun r => ?_⟩
  match r with
  | none => rfl
  | some row =>
    show ((deepTotal (some row)) == 0) = false
    unfold deepTotal
    match h : row.total_marks with
    | none => simp [h]
    | some t =>
      by_cases ht : t = 0
      · simp [h, ht]
      · simp [h, ht]

/-! ## Claim C6: the two distinct pass thresholds -/

/-- The `calcStats` fold, started from arbitrary counters, adds the
number of passing rows to the first counter and the number of failing
rows to the second. -/
theorem calcStats_foldl (l : List ResultRow) (a b : Nat) :
    l.foldl
        (fun pf r => if cohortPasses r then (pf.1 + 1, pf.2) else (pf.1, pf.2 + 1))
        (a, b) =
      (a + l.countP cohortPasses, b + l.countP fun r => !cohortPasses r) := by
  induction l generalizing a b with
  | nil => simp
  | cons r rest ih =>
    cases h : cohortPasses r with
    | true =>
      rw [List.foldl_cons, if_pos h, ih]
      simp only [List.countP_cons, h, Bool.not_true, Bool.not_false,
        eq_self_iff_true, if_true, Bool.false_eq_true, if_false, Prod.mk.injEq]
      omega
    | false =>
      rw [List.foldl_cons, if_neg (by simp [h]), ih]
      simp only [List.countP_cons, h, Bool.not_true, Bool.not_false,
        eq_self_iff_true, if_true, Bool.false_eq_true, if_false, Prod.mk.injEq]
      omega

/-- Claim C6: the deep-dive verdict computes
`percent = round(100 × marks/total)` and passes iff `percent ≥ 40`,
while the cohort tally independently counts a latest-attempt row as a
pass iff its percentage reaches `PASS_THRESHOLD * 100 = 50`; both
thresholds coexist, and at `marks_obtained = 38`, `total_marks = 100`
both evaluate to fail. -/
theorem dual_pass_thresholds :
    (∀ l : List ResultRow,
      calcStats l = (l.countP cohortPasses, l.countP fun r => !cohortPasses r)) ∧
    PASS_THRESHOLD * 100 = 50 ∧
    deepPercent (some c6Row38) = 38 ∧
    deepIsPass (some c6Row38) = false ∧
    deepStatus (some c6Row38) = "Failed" ∧
    percentFrom (calcScore c6Row38) (calcTotal c6Row38) = 38 ∧
    cohortPasses c6Row38 = false ∧
    calcStats [c6Row38] = (0, 1) := by
  have h38 : percentFrom (calcScore c6Row38) (calcTotal c6Row38) = 38 := by decide
  have hfail : cohortPasses c6Row38 = false := by
    unfold cohortPasses
    rw [h38, decide_eq_false_iff_not]
    norm_num [PASS_THRESHOLD]
  refine ⟨fun l => by simpa using calcStats_foldl l 0 0,
    by norm_num [PASS_THRESHOLD], by decide, by decide, by decide, h38, hfail, ?_⟩
  unfold calcStats
  rw [List.foldl_cons, if_neg (by simp [hfail])]
  rfl

/-! ## Claim C4: section average is the mean of per-student percentages -/

/-- Claim C4: the section overall completion is the rounded arithmetic
mean of each student's own rounded completion percentage, not a pooled
points ratio.  At the concrete 2-item blueprint with one student at
100% and one at 0% the route yields 50; and on a cohort where the two
aggregations disagree (three two-modality items, one student submitting
one half of one item) the route yields the mean value 9, while the
pooled alternative would yield 8. -/
theorem section_average_is_mean_of_student_percentages :
    (∀ (students : List String) (tree : CourseTree) (rows : List ResultRow),
      students ≠ [] →
      buildBlueprint tree "practice" ≠ [] →
      sectionOverallCompletion students tree rows =
        sectionAverageSpec (buildBlueprint tree "practice") rows students) ∧
    sectionOverallCompletion c4Students c4Tree c4Rows = 50 ∧
    sectionOverallCompletion c4dStudents c4dTree c4dRows = 9 ∧
    pooledSectionCompletionSpec (buildBlueprint c4dTree "practice") c4dRows
      c4dStudents = 8 := by
  refine ⟨fun students tree rows h1 h2 => ?_, by decide, by decide, by decide⟩
  have e1 : students.isEmpty = false := by
    cases students with
    | nil => exact absurd rfl h1
    | cons a l => rfl
  have e2 : (buildBlueprint tree "practice").length ≠ 0 := by
    intro h
    exact h2 (List.length_eq_zero.mp h)
  simp only [sectionOverallCompletion, sectionAverageSpec]
  rw [if_neg (show ¬students.isEmpty = true by simp [e1]), if_neg e2]

/-- Witness for C4 applying the refinement at the concrete scenario. -/
theorem section_average_is_mean_witness :
    sectionOverallCompletion c4Students c4Tree c4Rows =
      sectionAverageSpec (buildBlueprint c4Tree "practice") c4Rows c4Students :=
  section_average_is_mean_of_student_percentages.1 c4Students c4Tree c4Rows
    (by decide) (by decide)

/-! ## Claim C5: latest-attempt selection -/

/-- Folding "keep the last row satisfying `p`" over a list yields the
last satisfying row, falling back to the start value. -/
theorem foldl_keep_last (p : ResultRow → Bool) (rows : List ResultRow)
    (acc : Option ResultRow) :
    rows.foldl (fun a r => if p r then some r else a) acc =
      ((rows.filter p).getLast?).or acc := by
  induction rows using List.reverseRecOn with
  | nil => simp
  | append_singleton l r ih =>
    rw [List.foldl_append, List.foldl_cons, List.foldl_nil, ih]
    cases h : p r with
    | true => simp [List.filter_append, h, List.getLast?_concat]
    | false => simp [List.filter_append, h]

/-- The exam-progress `resultMap` lookup returns the last fetched row
with the requested key. -/
theorem resultMapGet_eq_getLast (rows : List ResultRow) (sid sub ty : String) :
    resultMapGet rows sid sub ty =
      (rows.filter fun r =>
        r.student_id == sid && r.sub_unit_id == sub && r.result_type == ty).getLast? := by
  unfold resultMapGet
  rw [foldl_keep_last, Option.or_none]

/-- One `getLatestStep` preserves the `getLatest` invariants: stored
rows come from the processed prefix, each stored row has the maximal
`attempt_count` among processed rows of its student, and every processed
student has a stored row. -/
theorem getLatestStep_inv (acc done : List ResultRow) (r : ResultRow)
    (h1 : ∀ x ∈ acc, x ∈ done)
    (h2 : ∀ x ∈ acc, ∀ q ∈ done, q.student_id = x.student_id →
      q.attempt_count ≤ x.attempt_count)
    (h3 : ∀ q ∈ done, ∃ x ∈ acc, x.student_id = q.student_id) :
    (∀ x ∈ getLatestStep acc r, x ∈ done ++ [r]) ∧
    (∀ x ∈ getLatestStep acc r, ∀ q ∈ done ++ [r],
      q.student_id = x.student_id → q.attempt_count ≤ x.attempt_count) ∧
    (∀ q ∈ done ++ [r], ∃ x ∈ getLatestStep acc r, x.student_id = q.student_id) := by
  unfold getLatestStep
  by_cases hany : (acc.any fun x => x.student_id == r.student_id) = true
  · rw [if_pos hany]
    rw [List.any_eq_true] at hany
    obtain ⟨x0, hx0, hsid0⟩ := hany
    rw [beq_iff_eq] at hsid0
    refine ⟨?_, ?_, ?_⟩
    · intro y hy
      rw [List.mem_map] at hy
      obtain ⟨x, hx, hfx⟩ := hy
      by_cases hc : x.student_id = r.student_id ∧ x.attempt_count < r.attempt_count
      · rw [if_pos hc] at hfx
        subst hfx
        exact List.mem_append_right _ (List.mem_singleton.mpr rfl)
      · rw [if_neg hc] at hfx
        subst hfx
        exact List.mem_append_left _ (h1 x hx)
    · intro y hy q hq hqs
      rw [List.mem_map] at hy
      obtain ⟨x, hx, hfx⟩ := hy
      rw [List.mem_append, List.mem_singleton] at hq
      by_cases hc : x.student_id = r.student_id ∧ x.attempt_count < r.attempt_count
      · rw [if_pos hc] at hfx
        subst hfx
        rcases hq with hq | hq
        · exact le_trans (h2 x hx q hq (hqs.trans hc.1.symm)) (le_of_lt hc.2)
        · subst hq
          exact le_refl _
      · rw [if_neg hc] at hfx
        subst hfx
        rcases hq with hq | hq
        · exact h2 x hx q hq hqs
        · subst hq
          by_contra hlt
          exact hc ⟨hqs.symm, lt_of_not_le hlt⟩
    · intro q hq
      rw [List.mem_append, List.mem_singleton] at hq
      rcases hq with hq | hq
      · obtain ⟨x, hx, hxs⟩ := h3 q hq
        refine ⟨if x.student_id = r.student_id ∧ x.attempt_count < r.attempt_count
                then r else x,
          List.mem_map.mpr ⟨x, hx, rfl⟩, ?_⟩
        by_cases hc : x.student_id = r.student_id ∧ x.attempt_count < r.attempt_count
        · rw [if_pos hc, ← hc.1]
          exact hxs
        · rw [if_neg hc]
          exact hxs
      · rw [hq]
        refine ⟨if x0.student_id = r.student_id ∧ x0.attempt_count < r.attempt_count
                then r else x0,
          List.mem_map.mpr ⟨x0, hx0, rfl⟩, ?_⟩
        by_cases hc : x0.student_id = r.student_id ∧ x0.attempt_count < r.attempt_count
        · rw [if_pos hc]
        · rw [if_neg hc]
          exact hsid0
  · rw [if_neg hany]
    have hnone : ∀ x ∈ acc, ¬x.student_id = r.student_id := by
      intro x hx heq
      exact hany (List.any_eq_true.mpr ⟨x, hx, beq_iff_eq.mpr heq⟩)
    refine ⟨?_, ?_, ?_⟩
    · intro y hy
      rw [List.mem_append, List.mem_singleton] at hy
      rcases hy with hy | hy
      · exact List.mem_append_left _ (h1 y hy)
      · subst hy
        exact List.mem_append_right _ (List.mem_singleton.mpr rfl)
    · intro y hy q hq hqs
      rw [List.mem_append, List.mem_singleton] at hy
      rw [List.mem_append, List.mem_singleton] at hq
      rcases hy with hy | hy
      · rcases hq with hq | hq
        · exact h2 y hy q hq hqs
        · subst hq
          exact absurd hqs.symm (hnone y hy)
      · subst hy
        rcases hq with hq | hq
        · obtain ⟨x, hx, hxs⟩ := h3 q hq
          exact absurd (hxs.trans hqs) (hnone x hx)
        · subst hq
          exact le_refl _
    · intro q hq
      rw [List.mem_append, List.mem_singleton] at hq
      rcases hq with hq | hq
      · obtain ⟨x, hx, hxs⟩ := h3 q hq
        exact ⟨x, List.mem_append_left _ hx, hxs⟩
      · refine ⟨r, List.mem_append_right _ (List.mem_singleton.mpr rfl), ?_⟩
        rw [hq]

/-- The `getLatest` fold carries the invariants of `getLatestStep_inv`
over any list of rows. -/
theorem getLatest_foldl_inv (rows : List ResultRow) :
    ∀ acc done : List ResultRow,
      (∀ x ∈ acc, x ∈ done) →
      (∀ x ∈ acc, ∀ q ∈ done, q.student_id = x.student_id →
        q.attempt_count ≤ x.attempt_count) →
      (∀ q ∈ done, ∃ x ∈ acc, x.student_id = q.student_id) →
      (∀ x ∈ rows.foldl getLatestStep acc, x ∈ done ++ rows) ∧
      (∀ x ∈ rows.foldl getLatestStep acc, ∀ q ∈ done ++ rows,
        q.student_id = x.student_id → q.attempt_count ≤ x.attempt_count) ∧
      (∀ q ∈ done ++ rows, ∃ x ∈ rows.foldl getLatestStep acc,
        x.student_id = q.student_id) := by
  induction rows with
  | nil =>
    intro acc done h1 h2 h3
    simpa using ⟨h1, h2, h3⟩
  | cons r rest ih =>
    intro acc done h1 h2 h3
    obtain ⟨g1, g2, g3⟩ := getLatestStep_inv acc done r h1 h2 h3
    have h := ih (getLatestStep acc r) (done ++ [r]) g1 g2 g3
    rw [List.append_assoc, List.singleton_append] at h
    rw [List.foldl_cons]
    exact h

/-- Claim C5 (counterexample): the exam-progress `resultMap` does not
select the row with the greatest `attempt_count` — with an attempt-2 row
fetched before an attempt-1 row for the same
(student, sub-unit, modality) key, the lookup returns the attempt-1
row. -/
theorem resultMap_ignores_attempt_count :
    resultMapGet c5Rows "s1" "e1" "mcq" = some c5RowLater ∧
    c5RowLater.attempt_count = 1 ∧
    c5RowEarlier ∈ c5Rows ∧
    c5RowEarlier.student_id = "s1" ∧
    c5RowEarlier.sub_unit_id = "e1" ∧
    c5RowEarlier.result_type = "mcq" ∧
    c5RowLater.attempt_count < c5RowEarlier.attempt_count := by
  decide

/-- Claim C5 (amended): the summary route's `getLatest` does select, for
every student, a fetched row whose `attempt_count` is maximal among that
student's rows (and covers every student present); the exam-progress
`resultMap`, by contrast, keeps whichever matching row was fetched last,
regardless of `attempt_count`. -/
theorem latest_attempt_selection_amended :
    (∀ rows : List ResultRow, ∀ x ∈ getLatest rows,
      x ∈ rows ∧
      ∀ q ∈ rows, q.student_id = x.student_id →
        q.attempt_count ≤ x.attempt_count) ∧
    (∀ rows : List ResultRow, ∀ q ∈ rows,
      ∃ x ∈ getLatest rows, x.student_id = q.student_id) ∧
    (∀ (rows : List ResultRow) (sid sub ty : String),
      resultMapGet rows sid sub ty =
        (rows.filter fun r =>
          r.student_id == sid && r.sub_unit_id == sub &&
            r.result_type == ty).getLast?) := by
  refine ⟨?_, ?_, fun rows sid sub ty => resultMapGet_eq_getLast rows sid sub ty⟩
  · intro rows x hx
    unfold getLatest at hx
    have h := getLatest_foldl_inv rows [] []
      (by intro x hx; cases hx) (by intro x hx; cases hx) (by intro q hq; cases hq)
    rw [List.nil_append] at h
    exact ⟨h.1 x hx, h.2.1 x hx⟩
  · intro rows q hq
    have h := getLatest_foldl_inv rows [] []
      (by intro x hx; cases hx) (by intro x hx; cases hx) (by intro q hq; cases hq)
    rw [List.nil_append] at h
    exact h.2.2 q hq

/-- Witness for C5 (amended) at concrete rows: `getLatest` keeps the
attempt-2 row. -/
theorem latest_attempt_selection_amended_witness :
    c5RowEarlier ∈ getLatest c5Rows ∧
    c5RowEarlier ∈ c5Rows ∧
    (∀ q ∈ c5Rows, q.student_id = c5RowEarlier.student_id →
      q.attempt_count ≤ c5RowEarlier.attempt_count) :=
  ⟨by decide,
   (latest_attempt_selection_amended.1 c5Rows c5RowEarlier (by decide)).1,
   (latest_attempt_selection_amended.1 c5Rows c5RowEarlier (by decide)).2⟩

/-! ## Claim C7: computeAvgPctByAttempt -/

/-- Lookup after one upsert: the requested attempt's entry gains the new
percentage (or is created), every other entry is unchanged. -/
theorem findEntry_upsert (m : List (Nat × Int × Nat)) (att : Nat) (pct : Int)
    (a : Nat) :
    findEntry (upsertPct m att pct) a =
      if a = att then
        (match findEntry m att with
         | some e => some (e.1, e.2.1 + pct, e.2.2 + 1)
         | none => some (att, pct, 1))
      else findEntry m a := by
  induction m with
  | nil =>
    by_cases h : a = att
    · subst h
      simp [upsertPct, findEntry]
    · simp [upsertPct, findEntry, h, Ne.symm h]
  | cons e rest ih =>
    by_cases hk : e.1 = att
    · by_cases h : a = att
      · subst h
        simp [upsertPct, findEntry, hk]
      · simp [upsertPct, findEntry, hk, h, Ne.symm h]
    · by_cases he : e.1 = a
      · have ha : ¬a = att := fun hh => hk (he.trans hh)
        simp [upsertPct, findEntry, hk, he, ha]
      · simp [upsertPct, findEntry, hk, he, ih]

/-- The keys after an upsert: unchanged when the attempt was present,
extended by the attempt otherwise. -/
theorem keys_upsert (m : List (Nat × Int × Nat)) (att : Nat) (pct : Int) :
    (upsertPct m att pct).map Prod.fst =
      if att ∈ m.map Prod.fst then m.map Prod.fst
      else m.map Prod.fst ++ [att] := by
  induction m with
  | nil => simp [upsertPct]
  | cons e rest ih =>
    by_cases hk : e.1 = att
    · simp [upsertPct, hk]
    · by_cases hm : att ∈ rest.map Prod.fst
      · simp [upsertPct, hk, ih, hm, Ne.symm hk]
      · simp [upsertPct, hk, ih, hm, Ne.symm hk]

/-- The trend fold keeps the attempt keys without duplicates. -/
theorem trendMap_keys_nodup (rows : List ResultRow) :
    ∀ m : List (Nat × Int × Nat), (m.map Prod.fst).Nodup →
      ((rows.foldl (fun acc r => upsertPct acc r.attempt_count (rowPct r)) m).map
        Prod.fst).Nodup := by
  induction rows with
  | nil =>
    intro m h
    simpa using h
  | cons r rest ih =>
    intro m h
    rw [List.foldl_cons]
    apply ih
    rw [keys_upsert]
    by_cases hm : r.attempt_count ∈ m.map Prod.fst
    · rw [if_pos hm]
      exact h
    · rw [if_neg hm, List.nodup_append]
      refine ⟨h, List.nodup_singleton _, ?_⟩
      intro x hx hx1
      rw [List.mem_singleton] at hx1
      subst hx1
      exact hm hx

/-- An attempt key is present exactly when its lookup succeeds. -/
theorem findEntry_isSome_iff (m : List (Nat × Int × Nat)) (a : Nat) :
    (findEntry m a).isSome = true ↔ a ∈ m.map Prod.fst := by
  induction m with
  | nil => simp [findEntry]
  | cons e rest ih =>
    by_cases he : e.1 = a
    · simp [findEntry, he]
    · simp [findEntry, he, ih, Ne.symm he]

/-- Lookup in the final trend map, characterised by the rows at the
requested attempt: the running sum of their percentages and their
count. -/
theorem trendMap_findEntry (rows : List ResultRow) :
    ∀ (m : List (Nat × Int × Nat)) (a : Nat),
      findEntry (rows.foldl (fun acc r => upsertPct acc r.attempt_count (rowPct r)) m) a =
        (match findEntry m a with
         | some e =>
           some (e.1,
             e.2.1 + ((rows.filter fun r => r.attempt_count = a).map rowPct).sum,
             e.2.2 + (rows.filter fun r => r.attempt_count = a).length)
         | none =>
           if (rows.filter fun r => r.attempt_count = a).length = 0 then none
           else
             some (a, ((rows.filter fun r => r.attempt_count = a).map rowPct).sum,
               (rows.filter fun r => r.attempt_count = a).length)) := by
  induction rows with
  | nil =>
    intro m a
    match h : findEntry m a with
    | some e => simp [h]
    | none => simp [h]
  | cons r rest ih =>
    intro m a
    rw [List.foldl_cons, ih, findEntry_upsert]
    by_cases ha : a = r.attempt_count
    · subst ha
      rw [if_pos rfl]
      have hfc :
          List.filter (fun x => decide (x.attempt_count = r.attempt_count)) (r :: rest) =
            r :: List.filter (fun x => decide (x.attempt_count = r.attempt_count)) rest := by
        simp [List.filter_cons]
      rw [hfc, List.map_cons, List.sum_cons, List.length_cons]
      cases hm : findEntry m r.attempt_count with
      | some e =>
        simp only [hm, Option.some.injEq, Prod.mk.injEq, true_and]
        refine ⟨?_, ?_⟩ <;> omega
      | none =>
        simp only [hm]
        rw [if_neg (Nat.succ_ne_zero _)]
        simp only [Option.some.injEq, Prod.mk.injEq, true_and]
        omega
    · have hf : ¬r.attempt_count = a := fun hh => ha hh.symm
      rw [if_neg ha]
      simp [List.filter_cons, hf]

/-- Claim C7: `computeAvgPctByAttempt` returns, for each distinct
attempt number present in the rows, the rounded mean percentage over
all rows at that attempt (each row's percentage read from the nested
mcq analytics pair when present, else from the flat marks pair), as two
parallel sequences with the attempt numbers sorted ascending and
without duplicates; rows with attempts [1,1,2] and percentages
[40,60,80] yield ([1,2], [50,80]). -/
theorem computeAvgPctByAttempt_spec :
    (∀ rows : List ResultRow,
      (computeAvgPctByAttempt rows).1.Sorted (· ≤ ·) ∧
      (computeAvgPctByAttempt rows).1.Nodup ∧
      (∀ a : Nat, a ∈ (computeAvgPctByAttempt rows).1 ↔
        ∃ r ∈ rows, r.attempt_count = a) ∧
      (computeAvgPctByAttempt rows).2 =
        (computeAvgPctByAttempt rows).1.map (specAvgPct rows)) ∧
    computeAvgPctByAttempt c7Rows = ([1, 2], [50, 80]) := by
  have hfe : ∀ (rows : List ResultRow) (a : Nat),
      findEntry (trendMapOf rows) a =
        if (rows.filter fun r => r.attempt_count = a).length = 0 then none
        else
          some (a, ((rows.filter fun r => r.attempt_count = a).map rowPct).sum,
            (rows.filter fun r => r.attempt_count = a).length) := by
    intro rows a
    unfold trendMapOf
    rw [trendMap_findEntry]
    simp [findEntry]
  refine ⟨fun rows => ?_, by decide⟩
  refine ⟨List.sorted_insertionSort _ _,
    ((List.perm_insertionSort _ _).nodup_iff).mpr
      (trendMap_keys_nodup rows [] (by simp)), ?_, ?_⟩
  · intro a
    show a ∈ List.insertionSort (· ≤ ·) ((trendMapOf rows).map Prod.fst) ↔ _
    rw [(List.perm_insertionSort _ _).mem_iff, ← findEntry_isSome_iff, hfe]
    by_cases hl : (rows.filter fun r => r.attempt_count = a).length = 0
    · rw [if_pos hl]
      simp only [Option.isSome_none, Bool.false_eq_true, false_iff]
      rw [List.length_eq_zero] at hl
      rintro ⟨r, hr, hra⟩
      have hmem : r ∈ rows.filter fun r => r.attempt_count = a :=
        List.mem_filter.mpr ⟨hr, by simp [hra]⟩
      rw [hl] at hmem
      cases hmem
    · rw [if_neg hl]
      simp only [Option.isSome_some, true_iff]
      have hne : (rows.filter fun r => r.attempt_count = a) ≠ [] := by
        intro hnil
        rw [hnil] at hl
        exact hl rfl
      obtain ⟨r, hr⟩ := List.exists_mem_of_ne_nil _ hne
      have hm := List.mem_filter.mp hr
      exact ⟨r, hm.1, by simpa using hm.2⟩
  · show List.map _ _ = List.map _ _
    refine List.map_congr_left ?_
    intro a ha
    rw [(List.perm_insertionSort _ _).mem_iff, ← findEntry_isSome_iff, hfe] at ha
    unfold avgForAttempt specAvgPct
    rw [hfe]
    by_cases hl : (rows.filter fun r => r.attempt_count = a).length = 0
    · rw [if_pos hl] at ha
      cases ha
    · rw [if_neg hl, if_neg hl]
      simp [Nat.pos_of_ne_zero hl]
